import Mathlib

/-!
Verification of the layer-composition stage of the Slic3r slicing pipeline
(`xs/src/libslic3r/Layer.cpp`): slice merging (`Layer::make_slices`),
perimeter grouping and redistribution (`Layer::make_perimeters`), region
management (`Layer::get_region`, `Layer::delete_region`) and the layer
destructor's neighbor unlinking (`Layer::~Layer`).

The shallow embedding translates the data model and control flow of
`Layer.cpp` directly.  The external geometry primitives (Clipper-based
boolean union/intersection from `ClipperUtils`, the nearest-neighbor
chaining heuristic from `Geometry.cpp`, and the per-region perimeter
generator `LayerRegion::make_perimeters`) are not part of the studied
sources; where needed they are modelled from the specification (marked
`Modelled from the spec:`) or taken as explicit functional parameters of the
embedded operations, mirroring the spec's component boundaries.
-/

namespace Slic3r

/-- A 2D point with integer (scaled) coordinates, as in `Slic3r::Point`. -/
structure Point where
  x : Int
  y : Int
deriving DecidableEq

instance : Inhabited Point := ⟨⟨0, 0⟩⟩

/-- A polygon is its vertex list, as in `Slic3r::Polygon` (`MultiPoint`). -/
abbrev Polygon := List Point

/-- `Polygon::first_point()`: the first vertex (`points.front()`). -/
def first_point (p : Polygon) : Point := p.headD ⟨0, 0⟩

/-- Twice the signed area of the edge fan, helper for the shoelace sum. -/
def shoelaceGo (first : Point) : List Point → Int
  | [] => 0
  | [p] => p.x * first.y - first.x * p.y
  | p :: q :: rest => (p.x * q.y - q.x * p.y) + shoelaceGo first (q :: rest)

/-- Twice the signed area of a closed polygon (shoelace formula). -/
def shoelace : Polygon → Int
  | [] => 0
  | p :: rest => shoelaceGo p (p :: rest)

/-- Counter-clockwise orientation test (`Polygon::is_counter_clockwise`):
positive signed area.  Slic3r's convention: outer contours are CCW, holes
are CW. -/
def ccw (p : Polygon) : Bool := decide (0 < shoelace p)

/-- A polygon with holes, as in `Slic3r::ExPolygon`. -/
structure ExPolygon where
  contour : Polygon
  holes : List Polygon
deriving DecidableEq

instance : Inhabited ExPolygon := ⟨⟨[], []⟩⟩

/-- Flattening of expolygons into a plain polygon soup (contour followed by
its holes), as in the `ExPolygon`-to-`Polygons` conversion used by
`Layer::make_slices` when collecting `region_slices_p`. -/
def to_polygons (exs : List ExPolygon) : List Polygon :=
  (exs.map (fun e => e.contour :: e.holes)).flatten

/-- Modelled from the spec: the boolean union primitive `union_` of
`ClipperUtils` is not among the studied sources.  Per the spec it is a pure,
deterministic, total function from a polygon soup to polygons-with-holes
which, on well-formed non-self-overlapping input (CCW contours, CW holes),
merges coincident geometry without loss; in particular on the flattened
soup of a list of disjoint expolygons it reconstitutes those expolygons.
We model it as that reconstitution: each CCW polygon starts a new
expolygon and collects the CW polygons following it as its holes. -/
def regroupFuel : Nat → List Polygon → List ExPolygon
  | 0, _ => []
  | _ + 1, [] => []
  | fuel + 1, p :: rest =>
    if ccw p then
      ⟨p, rest.takeWhile (fun q => !ccw q)⟩ ::
        regroupFuel fuel (rest.dropWhile (fun q => !ccw q))
    else
      regroupFuel fuel rest

/-- Modelled from the spec: `union_(polygons) -> polygons-with-holes`
(see `regroupFuel`). -/
def union_ (soup : List Polygon) : List ExPolygon :=
  regroupFuel soup.length soup

/-- Squared euclidean distance between two points. -/
def dist2 (a b : Point) : Int := (a.x - b.x) ^ 2 + (a.y - b.y) ^ 2

/-- Accumulator step of the greedy chaining pick: replace the best
candidate only when strictly closer, so ties keep the earlier candidate
in list order, i.e. the smallest original input index. -/
def chainStep (last : Point) (best : Option (Nat × Point)) (c : Nat × Point) :
    Option (Nat × Point) :=
  match best with
  | none => some c
  | some b => if dist2 c.2 last < dist2 b.2 last then some c else some b

/-- One greedy step of the chaining heuristic: the candidate (index, point)
nearest to `last`. -/
def chainPick (last : Point) (cands : List (Nat × Point)) : Option (Nat × Point) :=
  cands.foldl (chainStep last) none

instance : BEq (Nat × Point) := instBEqOfDecidableEq

instance : LawfulBEq (Nat × Point) := by
  constructor
  · intro a b h
    exact of_decide_eq_true h
  · intro a
    exact decide_eq_true rfl

/-- Greedy nearest-neighbor chain: repeatedly pick the nearest unvisited
candidate, starting from `last`. -/
def chainAux : Nat → Point → List (Nat × Point) → List Nat
  | 0, _, _ => []
  | fuel + 1, last, cands =>
    match chainPick last cands with
    | none => []
    | some c => c.1 :: chainAux fuel c.2 (cands.erase c)

/-- Modelled from the spec: `Slic3r::Geometry::chained_path` is not among
the studied sources.  Per the spec it is a greedy nearest-neighbor chaining
heuristic producing a visiting order over the input points, ties broken by
original input index.  Modelled as a greedy chain anchored at the origin. -/
def chained_path (pts : List Point) : List Nat :=
  chainAux pts.length ⟨0, 0⟩ pts.enum

/-- A slice surface, as in `Slic3r::Surface`: a polygon-with-holes tagged
with a surface classification and an extra-perimeter count (the fields of
`Surface` read by `Layer.cpp`). -/
structure Surface where
  surface_type : Nat
  extra_perimeters : Nat
  expolygon : ExPolygon
deriving DecidableEq

instance : Inhabited Surface := ⟨⟨0, 0, default⟩⟩

/-- `SurfaceCollection`-to-`ExPolygons` conversion: keep the expolygons. -/
def surfaces_to_expolygons (ss : List Surface) : List ExPolygon :=
  ss.map (fun s => s.expolygon)

/-- `SurfaceCollection`-to-`Polygons` conversion: flatten every surface's
contour and holes into a polygon soup. -/
def surfaces_to_polygons (ss : List Surface) : List Polygon :=
  to_polygons (surfaces_to_expolygons ss)

/-- The perimeter-relevant fields of `PrintRegionConfig` compared by
`Layer::make_perimeters` (lines 192-199).  The two speeds are
floating-point in the source; only equality of their values is ever used,
so they are modelled as integers.  The serialized
`perimeter_extrusion_width` is the canonical string the source compares. -/
structure PrintRegionConfig where
  perimeter_extruder : Int
  perimeters : Int
  perimeter_speed : Int
  gap_fill_speed : Int
  overhangs : Bool
  perimeter_extrusion_width_serialized : String
  thin_walls : Bool
  external_perimeters_first : Bool
deriving DecidableEq

instance : Inhabited PrintRegionConfig := ⟨⟨0, 0, 0, 0, false, "", false, false⟩⟩

/-- The configuration-compatibility test of `Layer::make_perimeters`
(lines 192-199): exact equality on the eight compared fields. -/
def configMatch (a b : PrintRegionConfig) : Bool :=
  a.perimeter_extruder == b.perimeter_extruder
    && a.perimeters == b.perimeters
    && a.perimeter_speed == b.perimeter_speed
    && a.gap_fill_speed == b.gap_fill_speed
    && a.overhangs == b.overhangs
    && a.perimeter_extrusion_width_serialized == b.perimeter_extrusion_width_serialized
    && a.thin_walls == b.thin_walls
    && a.external_perimeters_first == b.external_perimeters_first

/-- A `Slic3r::LayerRegion` as seen from `Layer.cpp`: its configuration,
its raw slice surfaces, and the perimeter-pass outputs. -/
structure LayerRegion where
  config : PrintRegionConfig
  slices : List Surface
  fill_surfaces : List Surface
  perimeter_surfaces : List Surface
deriving DecidableEq

instance : Inhabited LayerRegion := ⟨⟨default, [], [], []⟩⟩

/-- The merged (pre-ordering) island set of `Layer::make_slices`
(lines 103-114): the single region's slices when exactly one region
exists, otherwise the boolean union of every region's flattened slice
polygons. -/
def merged_slices (regions : List LayerRegion) : List ExPolygon :=
  if regions.length == 1 then
    surfaces_to_expolygons (regions.headD default).slices
  else
    union_ ((regions.map (fun r => surfaces_to_polygons r.slices)).flatten)

/-- `Layer::make_slices` (lines 100-133): merge the regions' slices into
islands, then store them in the order produced by the chaining heuristic
over each island's `contour.first_point()`. -/
def make_slices (regions : List LayerRegion) : List ExPolygon :=
  let slices := merged_slices regions
  let ordering_points := slices.map (fun ex => first_point ex.contour)
  let order := chained_path ordering_points
  order.map (fun i => slices.getD i default)

/-- The general multi-region path of `Layer::make_slices` (the `else`
branch of line 107) applied unconditionally, for comparison with the
single-region shortcut. -/
def make_slices_general_path (regions : List LayerRegion) : List ExPolygon :=
  let slices := union_ ((regions.map (fun r => surfaces_to_polygons r.slices)).flatten)
  let ordering_points := slices.map (fun ex => first_point ex.contour)
  let order := chained_path ordering_points
  order.map (fun i => slices.getD i default)

/-- A layer as mutated by `Layer::make_slices`: its regions and its island
set (`this->slices`). -/
structure SliceLayer where
  regions : List LayerRegion
  slices : List ExPolygon
deriving DecidableEq

/-- The layer-level effect of `Layer::make_slices`: the previous island
set is cleared (line 116) and replaced wholesale by the new one. -/
def layer_make_slices (L : SliceLayer) : SliceLayer :=
  { L with slices := make_slices L.regions }

/-- Outcome of an indexed access in the C++ sources: success, a thrown
`std::out_of_range` (the synchronous OutOfRange report), or undefined
behavior (an unchecked out-of-bounds access). -/
inductive IndexOutcome (α : Type) where
  | ok : α → IndexOutcome α
  | outOfRange : IndexOutcome α
  | undefined : IndexOutcome α
deriving DecidableEq

/-- `Layer::get_region` (lines 76-80): `regions.at(idx)`.
`std::vector::at` range-checks and throws `std::out_of_range` for any
index outside `[0, size)` (a negative `int` converts to a huge
`size_type`, also rejected). -/
def get_region (regions : List LayerRegion) (idx : Int) : IndexOutcome LayerRegion :=
  if h : 0 ≤ idx ∧ idx.toNat < regions.length then
    .ok (regions.get ⟨idx.toNat, h.2⟩)
  else
    .outOfRange

/-- `Layer::delete_region` (lines 90-97): `regions.begin() + idx` followed
by `erase` and `delete`, with no range check anywhere.  Inside
`[0, size)` the element is removed and destroyed; outside that range the
iterator arithmetic/erase is undefined behavior (no error is reported). -/
def delete_region (regions : List LayerRegion) (idx : Int) : IndexOutcome (List LayerRegion) :=
  if 0 ≤ idx ∧ idx.toNat < regions.length then
    .ok (regions.eraseIdx idx.toNat)
  else
    .undefined

/-- The error raised by a failed boolean-geometry primitive
(`DegenerateGeometry` in the spec's taxonomy). -/
inductive GeomErr where
  | degenerateGeometry : GeomErr
deriving DecidableEq

instance : Inhabited GeomErr := ⟨.degenerateGeometry⟩

/-- Result of running a C++ body that mutates state in place and may let
an exception escape: either normal completion, or a propagating exception
together with the state as it was at throw time (the mutations already
performed remain visible to the caller). -/
inductive CppResult (σ : Type) where
  | ok : σ → CppResult σ
  | thrown : GeomErr → σ → CppResult σ
deriving DecidableEq

/-- The state read and written by `Layer::make_perimeters`: the layer's
regions and its aggregate `perimeter_expolygons`. -/
structure LayerState where
  regions : List LayerRegion
  perimeter_expolygons : List ExPolygon
deriving DecidableEq

instance : Inhabited LayerState := ⟨⟨[], []⟩⟩

/-- The external collaborators of `Layer::make_perimeters`, taken as
parameters per the spec's component boundaries: the per-region perimeter
generator `LayerRegion::make_perimeters` (`gen`, returning the perimeter
surfaces and fill surfaces it writes into the output collections), the
safety-offset boolean union `union_ex(surfaces, true)`, and the boolean
intersection `intersection_ex(surfaces, surfaces)`.  Each may fail with
`DegenerateGeometry`, which in the C++ escapes as an exception. -/
structure PerimeterPrims where
  gen : PrintRegionConfig → List Surface → Except GeomErr (List Surface × List Surface)
  union_ex : List Surface → Bool → Except GeomErr (List ExPolygon)
  intersection_ex : List Surface → List Surface → Except GeomErr (List ExPolygon)

/-- `Surface s = tmpl; s.expolygon = ex;` — clone the attribute fields of
a template surface onto a new expolygon (lines 226-227, 252-253,
265-266). -/
def surface_with_attrs (tmpl : Surface) (ex : ExPolygon) : Surface :=
  { tmpl with expolygon := ex }

/-- The group of compatible regions formed at leader index `i`
(lines 186-203): the leader followed by every later region whose
configuration matches the leader's on the eight compared fields. -/
def group_members_of (regions : List LayerRegion) (i : Nat) : List Nat :=
  i :: (List.range regions.length).filter
    (fun j => decide (i < j)
      && configMatch (regions.getD i default).config (regions.getD j default).config)

/-- The single-region optimization path (lines 205-211): clear the
region's fill and perimeter surfaces, run the perimeter generator on its
own slices, then clear and repopulate the layer's aggregate
`perimeter_expolygons` from the region's new perimeter surfaces. -/
def process_single (P : PerimeterPrims) (st : LayerState) (i : Nat) : CppResult LayerState :=
  let r := st.regions.getD i default
  let cleared : LayerRegion := { r with fill_surfaces := [], perimeter_surfaces := [] }
  match P.gen r.config r.slices with
  | .error e => .thrown e { st with regions := st.regions.set i cleared }
  | .ok (per, fill) =>
    .ok { regions := st.regions.set i
            { cleared with perimeter_surfaces := per, fill_surfaces := fill },
          perimeter_expolygons := per.map (fun s => s.expolygon) }

/-- The largest extra-perimeter count among the pooled surfaces (bound for
enumerating the `std::map` keys). -/
def max_extra (ss : List Surface) : Nat :=
  ss.foldl (fun m s => max m s.extra_perimeters) 0

/-- The keys of the `std::map<unsigned short, Surfaces>` of line 214 in
iteration order: the distinct extra-perimeter counts present among the
pooled surfaces, in increasing order. -/
def bucket_keys (ss : List Surface) : List Nat :=
  (List.range (max_extra ss + 1)).filter
    (fun k => ss.any (fun s => s.extra_perimeters == k))

/-- The bucket of pooled surfaces with a given extra-perimeter count, in
encounter order (line 217). -/
def bucket (ss : List Surface) (k : Nat) : List Surface :=
  ss.filter (fun s => s.extra_perimeters == k)

/-- Lines 221-230: for each bucket in key order, union its surfaces with
the safety offset and re-tag each merged expolygon with the attributes of
the bucket's front surface, concatenating the results into `new_slices`. -/
def merge_buckets (P : PerimeterPrims) (ss : List Surface) : List Nat → Except GeomErr (List Surface)
  | [] => .ok []
  | k :: ks => do
    let expp ← P.union_ex (bucket ss k) true
    let merged := expp.map (surface_with_attrs ((bucket ss k).headD default))
    let rest ← merge_buckets P ss ks
    .ok (merged ++ rest)

/-- The redistribution loop of lines 243-269: for each member region in
group order, intersect the pooled fill surfaces with the region's slices
and replace its `fill_surfaces` (template: front of the pooled fill set),
then intersect the pooled perimeter surfaces with the region's slices and
replace its `perimeter_surfaces` (template: again the front of the pooled
*fill* set, exactly as in line 265 of the source).  A failing
intersection escapes with the mutations already performed. -/
def redistribute (P : PerimeterPrims) (fillS perS : List Surface) :
    LayerState → List Nat → CppResult LayerState
  | st, [] => .ok st
  | st, j :: rest =>
    let r := st.regions.getD j default
    match P.intersection_ex fillS r.slices with
    | .error e => .thrown e st
    | .ok exppF =>
      let r1 : LayerRegion :=
        { r with fill_surfaces := exppF.map (surface_with_attrs (fillS.headD default)) }
      let st1 : LayerState := { st with regions := st.regions.set j r1 }
      match P.intersection_ex perS r.slices with
      | .error e => .thrown e st1
      | .ok exppP =>
        let r2 : LayerRegion :=
          { r1 with perimeter_surfaces := exppP.map (surface_with_attrs (fillS.headD default)) }
        redistribute P fillS perS { st with regions := st.regions.set j r2 } rest

/-- The pooling of lines 213-219: every surface of every group member's
raw slices, in group order. -/
def pooled_slices (st : LayerState) (members : List Nat) : List Surface :=
  (members.map (fun j => (st.regions.getD j default).slices)).flatten

/-- The multi-region group path (lines 212-270): pool every member's
slices, merge them by extra-perimeter bucket, run the perimeter generator
once on the pooled collection, clear and repopulate the layer's aggregate
`perimeter_expolygons`, and redistribute — unless the pooled fill-surface
set is empty, in which case the redistribution block is skipped
(line 242). -/
def process_multi (P : PerimeterPrims) (st : LayerState) (leader : Nat)
    (members : List Nat) : CppResult LayerState :=
  let cfg := (st.regions.getD leader default).config
  let pooled := pooled_slices st members
  match merge_buckets P pooled (bucket_keys pooled) with
  | .error e => .thrown e st
  | .ok new_slices =>
    match P.gen cfg new_slices with
    | .error e => .thrown e st
    | .ok (per, fill) =>
      let st1 : LayerState := { st with perimeter_expolygons := per.map (fun s => s.expolygon) }
      if fill.isEmpty then .ok st1
      else redistribute P fill per st1 members

/-- The driver loop of `Layer::make_perimeters` (lines 179-272):
iterate region indices in order, skip indices already grouped, form the
group at each remaining leader and process it on the single- or
multi-region path; a propagating exception aborts the remaining
iterations. -/
def make_perimeters_loop (P : PerimeterPrims) :
    LayerState → List Nat → List Nat → CppResult LayerState
  | st, [], _ => .ok st
  | st, i :: rest, done =>
    if i ∈ done then
      make_perimeters_loop P st rest done
    else
      let members := group_members_of st.regions i
      match (if members.length == 1 then process_single P st i
             else process_multi P st i members) with
      | .ok st1 => make_perimeters_loop P st1 rest (done ++ members)
      | .thrown e st1 => .thrown e st1

/-- `Layer::make_perimeters` (lines 169-273). -/
def make_perimeters (P : PerimeterPrims) (st : LayerState) : CppResult LayerState :=
  make_perimeters_loop P st (List.range st.regions.length) []

/-- The grouping performed by `Layer::make_perimeters` in isolation:
the list of groups (lists of region indices) formed by the driver loop. -/
def make_groups_loop (regions : List LayerRegion) : List Nat → List Nat → List (List Nat)
  | [], _ => []
  | i :: rest, done =>
    if i ∈ done then
      make_groups_loop regions rest done
    else
      group_members_of regions i ::
        make_groups_loop regions rest (done ++ group_members_of regions i)

/-- The perimeter groups formed by `Layer::make_perimeters` on a layer's
region list. -/
def make_groups (regions : List LayerRegion) : List (List Nat) :=
  make_groups_loop regions (List.range regions.length) []

/-- Projection of a `CppResult`: the final state, whether completion was
normal or by a propagating exception. -/
def result_state : CppResult LayerState → LayerState
  | .ok s => s
  | .thrown _ s => s

/-- Whether a `CppResult` is a normal completion. -/
def result_is_ok : CppResult LayerState → Bool
  | .ok _ => true
  | .thrown _ _ => false

/-- A layer as a node of the vertical linkage: non-owning references to
the layers above (`upper_layer`) and below (`lower_layer`), plus the
owned regions.  Layers are identified by their address, modelled as a
natural number. -/
structure LayerNode where
  upper : Option Nat
  lower : Option Nat
  regs : List LayerRegion
deriving DecidableEq

/-- The heap of live layers: a partial map from layer identity to node. -/
def LayerHeap : Type := Nat → Option LayerNode

/-- Point update of the heap: apply `f` to the node at `k`, if any. -/
def heap_update (s : LayerHeap) (k : Nat) (f : LayerNode → LayerNode) : LayerHeap :=
  fun x => if x = k then (s x).map f else s x

/-- Removal of a (deallocated) layer from the heap. -/
def heap_remove (s : LayerHeap) (k : Nat) : LayerHeap :=
  fun x => if x = k then none else s x

/-- The `Layer::Layer` constructor (lines 9-22): a fresh layer has null
`upper_layer` and `lower_layer` and an empty region list. -/
def new_layer_node : LayerNode := ⟨none, none, []⟩

/-- The first phase of `Layer::~Layer` (lines 27-33): null out the
back-references of both neighbors of `a` (the layer above loses its
`lower_layer`, the layer below loses its `upper_layer`). -/
def unlink_neighbors (s : LayerHeap) (a : Nat) : LayerHeap :=
  match s a with
  | none => s
  | some n =>
    let s1 := match n.upper with
      | some u => heap_update s u (fun m => { m with lower := none })
      | none => s
    match n.lower with
    | some l => heap_update s1 l (fun m => { m with upper := none })
    | none => s1

/-- The second phase of `Layer::~Layer` (line 35 onward):
`clear_regions()` destroys the owned regions, and the layer object itself
is deallocated — the layer leaves the heap with its regions. -/
def release_layer (s : LayerHeap) (a : Nat) : LayerHeap :=
  heap_remove s a

/-- `Layer::~Layer` (lines 24-36): first unlink both neighbors, then
release the owned regions and the layer itself, in that order. -/
def destroy_layer (s : LayerHeap) (a : Nat) : LayerHeap :=
  release_layer (unlink_neighbors s a) a

/-- The neighbor-symmetry invariant: whenever a live layer `x` has the
layer `y` above it, `y` is live and has `x` below it, and vice versa. -/
def symm_inv (s : LayerHeap) : Prop :=
  ∀ x nx, s x = some nx →
    (∀ y, nx.upper = some y → ∃ ny, s y = some ny ∧ ny.lower = some x) ∧
    (∀ y, nx.lower = some y → ∃ ny, s y = some ny ∧ ny.upper = some x)

/-- The tuple of the eight configuration fields compared by the grouping
step, for reasoning about `configMatch` as key equality. -/
def keyOf (c : PrintRegionConfig) :
    Int × Int × Int × Int × Bool × String × Bool × Bool :=
  (c.perimeter_extruder, c.perimeters, c.perimeter_speed, c.gap_fill_speed,
    c.overhangs, c.perimeter_extrusion_width_serialized, c.thin_walls,
    c.external_perimeters_first)

/-- The configuration at a region index (default-padded lookup). -/
def cfgAt (rs : List LayerRegion) (i : Nat) : PrintRegionConfig :=
  (rs.getD i default).config

/-- The property of being an in-range region index whose configuration
matches that of region `j`. -/
def leadP (rs : List LayerRegion) (j : Nat) (i : Nat) : Prop :=
  i < rs.length ∧ configMatch (cfgAt rs i) (cfgAt rs j) = true

instance (rs : List LayerRegion) (j : Nat) : DecidablePred (leadP rs j) :=
  fun i => by unfold leadP; infer_instance

/-- The least region index whose configuration matches that of region `j`
(the leader of `j`'s perimeter group). -/
def leadOf (rs : List LayerRegion) (j : Nat) (h : j < rs.length) : Nat :=
  Nat.find (⟨j, h, by simp [leadP, configMatch]⟩ : ∃ i, leadP rs j i)

/-- Well-formed expolygon list in Slic3r's orientation convention:
counter-clockwise contours, clockwise holes.  This is the model's
rendering of well-formed, non-self-overlapping boolean-union input. -/
def wf_expolygons (exs : List ExPolygon) : Prop :=
  ∀ e ∈ exs, ccw e.contour = true ∧ ∀ hp ∈ e.holes, ccw hp = false

instance (exs : List ExPolygon) : Decidable (wf_expolygons exs) := by
  unfold wf_expolygons
  infer_instance

/-- A concrete counter-clockwise 10x10 square at the origin. -/
def sqPoly : Polygon := [⟨0, 0⟩, ⟨10, 0⟩, ⟨10, 10⟩, ⟨0, 10⟩]

/-- A concrete counter-clockwise 10x10 square shifted right by 20 units. -/
def sqPoly2 : Polygon := [⟨20, 0⟩, ⟨30, 0⟩, ⟨30, 10⟩, ⟨20, 10⟩]

/-- `sqPoly` as a hole-free expolygon. -/
def exSq : ExPolygon := ⟨sqPoly, []⟩

/-- `sqPoly2` as a hole-free expolygon. -/
def exSq2 : ExPolygon := ⟨sqPoly2, []⟩

/-- A surface over `exSq` with the given classification and
extra-perimeter count. -/
def surfSq (t e : Nat) : Surface := ⟨t, e, exSq⟩

/-- A surface over `exSq2` with the given classification and
extra-perimeter count. -/
def surfSq2 (t e : Nat) : Surface := ⟨t, e, exSq2⟩

/-- A second concrete configuration differing from `default` on the
perimeter count. -/
def cfgB : PrintRegionConfig := { (default : PrintRegionConfig) with perimeters := 1 }

/-- Total (never-failing) intersection model used by concrete runs where
the second operand covers the first: the first operand's expolygons. -/
def coverIntersect (a _b : List Surface) : Except GeomErr (List ExPolygon) :=
  .ok (a.map (fun s => s.expolygon))

/-- Total union model used by concrete runs: the operands' expolygons. -/
def passUnion (ss : List Surface) (_safety : Bool) : Except GeomErr (List ExPolygon) :=
  .ok (ss.map (fun s => s.expolygon))

/-- Concrete primitives for the C1 run: the generator returns one
perimeter surface and an empty fill-surface set. -/
def P1 : PerimeterPrims :=
  { gen := fun _ _ => .ok ([surfSq 3 0], [])
    union_ex := passUnion
    intersection_ex := coverIntersect }

/-- Concrete layer for the C1 run: two regions with identical (default)
configurations and non-empty previous fill surfaces. -/
def st1def : LayerState :=
  { regions :=
      [ { config := default, slices := [surfSq 0 0],
          fill_surfaces := [surfSq 7 0], perimeter_surfaces := [surfSq 8 0] },
        { config := default, slices := [surfSq 0 0],
          fill_surfaces := [surfSq 7 0], perimeter_surfaces := [] } ]
    perimeter_expolygons := [] }

/-- Concrete primitives for the C2 run: the generator's perimeter output
identifies the region group it served (by its configuration). -/
def P2 : PerimeterPrims :=
  { gen := fun c _ =>
      if c.perimeters == 0 then .ok ([surfSq 3 0], []) else .ok ([surfSq2 4 0], [])
    union_ex := passUnion
    intersection_ex := coverIntersect }

/-- First region of the C2 run: default configuration. -/
def r0c2 : LayerRegion :=
  { config := default, slices := [surfSq 0 0],
    fill_surfaces := [], perimeter_surfaces := [] }

/-- Second region of the C2 run: configuration differing on the
perimeter count. -/
def r1c2 : LayerRegion :=
  { config := cfgB, slices := [surfSq 0 0],
    fill_surfaces := [], perimeter_surfaces := [] }

/-- Concrete layer for the C2 run: two regions with configurations that
differ on the perimeter count, hence two singleton groups. -/
def st2def : LayerState :=
  { regions := [r0c2, r1c2], perimeter_expolygons := [] }

/-- Concrete primitives for the C3 run: the generator's pooled perimeter
surfaces carry attributes (5, 9) while the pooled fill surfaces carry
attributes (1, 0). -/
def P3 : PerimeterPrims :=
  { gen := fun _ _ => .ok ([surfSq 5 9], [surfSq 1 0])
    union_ex := passUnion
    intersection_ex := coverIntersect }

/-- Concrete layer for the C3 run: two regions with identical (default)
configurations, forming one multi-region group. -/
def st3def : LayerState :=
  { regions :=
      [ { config := default, slices := [surfSq 0 0],
          fill_surfaces := [], perimeter_surfaces := [] },
        { config := default, slices := [surfSq 0 0],
          fill_surfaces := [], perimeter_surfaces := [] } ]
    perimeter_expolygons := [] }

/-- Concrete primitives for the C5 run: the intersection primitive fails
with `DegenerateGeometry` exactly on the second region's slices. -/
def P5 : PerimeterPrims :=
  { gen := fun _ _ => .ok ([surfSq 5 9], [surfSq 1 0])
    union_ex := passUnion
    intersection_ex := fun a b =>
      if b == [surfSq2 0 0] then .error .degenerateGeometry
      else .ok (a.map (fun s => s.expolygon)) }

/-- First region of the C5 run. -/
def r0c5 : LayerRegion :=
  { config := default, slices := [surfSq 0 0],
    fill_surfaces := [], perimeter_surfaces := [] }

/-- Second region of the C5 run: its slices are the marked surface on
which the intersection primitive fails. -/
def r1c5 : LayerRegion :=
  { config := default, slices := [surfSq2 0 0],
    fill_surfaces := [], perimeter_surfaces := [] }

/-- Concrete layer for the C5 run: two regions with identical (default)
configurations. -/
def st5def : LayerState :=
  { regions := [r0c5, r1c5], perimeter_expolygons := [] }

/-- Whether every surface of a list carries the attribute fields of the
template surface (the re-tagging property of the redistribution step). -/
def tagged_from (tmpl : Surface) (ss : List Surface) : Bool :=
  ss.all (fun s =>
    s.surface_type == tmpl.surface_type
      && s.extra_perimeters == tmpl.extra_perimeters)

/-- The layer state of the C3 run just before redistribution. -/
def st3mid : LayerState := { st3def with perimeter_expolygons := [exSq] }

/-- The final layer state of the C3 run. -/
def st3fin : LayerState :=
  { regions :=
      [ { config := default, slices := [surfSq 0 0],
          fill_surfaces := [surfSq 1 0], perimeter_surfaces := [surfSq 1 0] },
        { config := default, slices := [surfSq 0 0],
          fill_surfaces := [surfSq 1 0], perimeter_surfaces := [surfSq 1 0] } ]
    perimeter_expolygons := [exSq] }

/-- A concrete region list for the C6 witness: regions 0 and 2 share a
configuration, region 1 differs. -/
def rs6w : List LayerRegion :=
  [ { config := default, slices := [], fill_surfaces := [], perimeter_surfaces := [] },
    { config := cfgB, slices := [], fill_surfaces := [], perimeter_surfaces := [] },
    { config := default, slices := [], fill_surfaces := [], perimeter_surfaces := [] } ]

/-- A concrete single region for the C7 witness: two disjoint well-formed
square slices. -/
def r7w : LayerRegion :=
  { config := default, slices := [surfSq 0 0, surfSq2 0 0],
    fill_surfaces := [], perimeter_surfaces := [] }

/-- A concrete two-layer heap for the C9 witness: layer 1 sits above
layer 0. -/
def s9w : LayerHeap :=
  fun k => if k = 0 then some ⟨some 1, none, []⟩
    else if k = 1 then some ⟨none, some 0, []⟩ else none

theorem list_getD_set {α : Type} (l : List α) (i j : Nat) (a d : α) :
    (l.set i a).getD j d = if i = j ∧ j < l.length then a else l.getD j d := by
  induction l generalizing i j with
  | nil => simp
  | cons x xs ih =>
    cases i with
    | zero =>
      cases j with
      | zero => simp
      | succ m => simp
    | succ n =>
      cases j with
      | zero => simp
      | succ m =>
        simp only [List.set_cons_succ, List.getD_cons_succ, ih n m,
          List.length_cons]
        by_cases h : n = m ∧ m < xs.length
        · rw [if_pos h, if_pos ⟨by omega, by omega⟩]
        · rw [if_neg h, if_neg (by omega)]

/-- C4: `Layer::get_region` range-checks through `std::vector::at` and
reports OutOfRange synchronously for every index outside
`[0, region_count)`, returning the region otherwise; but
`Layer::delete_region` performs no range check at all — outside the valid
range its unchecked iterator arithmetic is undefined behavior, not an
OutOfRange report, while inside the range it removes the region. -/
theorem c4_get_checked_delete_unchecked (regions : List LayerRegion) (idx : Int) :
    (¬(0 ≤ idx ∧ idx.toNat < regions.length) →
        get_region regions idx = .outOfRange ∧
        delete_region regions idx = .undefined) ∧
    (∀ h : 0 ≤ idx ∧ idx.toNat < regions.length,
        get_region regions idx = .ok (regions.get ⟨idx.toNat, h.2⟩) ∧
        delete_region regions idx = .ok (regions.eraseIdx idx.toNat)) := by
  constructor
  · intro h
    constructor
    · simp only [get_region]
      rw [dif_neg h]
    · simp only [delete_region]
      rw [if_neg h]
  · intro h
    constructor
    · simp only [get_region]
      rw [dif_pos h]
    · simp only [delete_region]
      rw [if_pos h]

/-- C4 counterexample: at index 1 of a one-region layer (outside
`[0, 1)`), `delete_region` does not fail with OutOfRange — the source
performs the unchecked erase, which is undefined behavior. -/
theorem c4_counterexample :
    delete_region [(default : LayerRegion)] 1 ≠ IndexOutcome.outOfRange ∧
    delete_region [(default : LayerRegion)] 1 = IndexOutcome.undefined := by
  constructor
  · decide
  · decide

/-- C4 witness. -/
theorem c4_witness :
    get_region [(default : LayerRegion)] 2 = IndexOutcome.outOfRange ∧
    delete_region [(default : LayerRegion)] 2 = IndexOutcome.undefined ∧
    get_region [(default : LayerRegion)] 0 = IndexOutcome.ok default ∧
    delete_region [(default : LayerRegion)] 0 = IndexOutcome.ok [] := by
  refine ⟨?_, ?_, ?_, ?_⟩
  · exact ((c4_get_checked_delete_unchecked [default] 2).1 (by decide)).1
  · exact ((c4_get_checked_delete_unchecked [default] 2).1 (by decide)).2
  · exact ((c4_get_checked_delete_unchecked [default] 0).2 ⟨by decide, by decide⟩).1
  · exact ((c4_get_checked_delete_unchecked [default] 0).2 ⟨by decide, by decide⟩).2

/-- C10: `Layer::make_slices` on a layer with zero regions succeeds with
an empty island set, and the produced island set depends only on the
regions — the layer's prior islands are replaced wholesale and never leak
into the output. -/
theorem c10_make_slices_replaces_wholesale (L : SliceLayer) :
    (L.regions = [] → (layer_make_slices L).slices = []) ∧
    (∀ M : SliceLayer, M.regions = L.regions →
        (layer_make_slices M).slices = (layer_make_slices L).slices) := by
  constructor
  · intro h
    show make_slices L.regions = []
    rw [h]
    decide
  · intro M h
    show make_slices M.regions = make_slices L.regions
    rw [h]

/-- C10 witness. -/
theorem c10_witness :
    (layer_make_slices ⟨[], [exSq]⟩).slices = [] ∧
    (layer_make_slices ⟨[], [exSq]⟩).slices = (layer_make_slices ⟨[], []⟩).slices := by
  constructor
  · exact (c10_make_slices_replaces_wholesale ⟨[], [exSq]⟩).1 rfl
  · exact (c10_make_slices_replaces_wholesale ⟨[], []⟩).2 ⟨[], [exSq]⟩ rfl

/-- C1 (amended): in the multi-region path of `Layer::make_perimeters`,
when the perimeter generator returns an empty pooled fill-surface set the
redistribution block is skipped entirely — every region keeps its
previous `fill_surfaces` and `perimeter_surfaces` unchanged, and only the
layer's aggregate `perimeter_expolygons` is replaced. -/
theorem c1_empty_fill_skips_redistribution (P : PerimeterPrims) (st : LayerState)
    (i : Nat) (members : List Nat) (ns per : List Surface)
    (hm : merge_buckets P (pooled_slices st members)
        (bucket_keys (pooled_slices st members)) = .ok ns)
    (hg : P.gen (st.regions.getD i default).config ns = .ok (per, [])) :
    process_multi P st i members =
      .ok { st with perimeter_expolygons := per.map (fun s => s.expolygon) } := by
  simp only [process_multi, hm, hg, List.isEmpty_nil, if_true]

/-- C1 counterexample: a layer whose two identically-configured regions
form one multi-region group, with non-empty previous fill surfaces; the
generator returns an empty pooled fill set, and after
`Layer::make_perimeters` region 0 still holds its previous (non-empty)
fill surfaces instead of having them cleared. -/
theorem c1_counterexample :
    result_is_ok (make_perimeters P1 st1def) = true ∧
    ((result_state (make_perimeters P1 st1def)).regions.getD 0 default).fill_surfaces
        = [surfSq 7 0] ∧
    ([surfSq 7 0] : List Surface) ≠ [] := by
  refine ⟨by decide, by decide, by decide⟩

/-- C1 witness. -/
theorem c1_witness :
    process_multi P1 st1def 0 [0, 1] =
      .ok { st1def with perimeter_expolygons := [exSq] } := by
  have h := c1_empty_fill_skips_redistribution P1 st1def 0 [0, 1]
    [surfSq 0 0, surfSq 0 0] [surfSq 3 0] rfl rfl
  simpa using h

/-- C3 (amended): in the redistribution step, every region's new
`perimeter_surfaces` is re-tagged with an attribute clone drawn from the
front of the pooled *fill*-surface collection (the same template used for
the fill redistribution, per line 265 of the source), not from the pooled
perimeter-surface collection. -/
theorem c3_perimeter_template_from_fill_front (P : PerimeterPrims)
    (fillS perS : List Surface) :
    ∀ (members : List Nat) (st st1 : LayerState),
      redistribute P fillS perS st members = .ok st1 →
      ∀ j : Nat,
        (st1.regions.getD j default).perimeter_surfaces =
            (st.regions.getD j default).perimeter_surfaces ∨
          tagged_from (fillS.headD default)
            (st1.regions.getD j default).perimeter_surfaces = true := by
  intro members
  induction members with
  | nil =>
    intro st st1 h j
    simp only [redistribute] at h
    cases h
    left
    rfl
  | cons j0 rest ih =>
    intro st st1 h j
    simp only [redistribute] at h
    cases hF : P.intersection_ex fillS (st.regions.getD j0 default).slices with
    | error e => rw [hF] at h; cases h
    | ok exppF =>
      rw [hF] at h
      cases hP : P.intersection_ex perS (st.regions.getD j0 default).slices with
      | error e => rw [hP] at h; cases h
      | ok exppP =>
        rw [hP] at h
        rcases ih _ _ h j with heq | htag
        · rw [heq]
          by_cases hj : j0 = j ∧ j < st.regions.length
          · right
            simp only [list_getD_set, hj, if_pos, and_self, if_true]
            simp [tagged_from, surface_with_attrs, List.all_eq_true]
          · left
            simp only [list_getD_set]
            rw [if_neg hj]
        · right
          exact htag

/-- C3 counterexample: a multi-region group whose generator returns a
perimeter pool with attributes (5, 9) and a fill pool with attributes
(1, 0); after `Layer::make_perimeters` the regions' `perimeter_surfaces`
carry the fill pool's attributes (1, 0), not the perimeter pool's. -/
theorem c3_counterexample :
    result_is_ok (make_perimeters P3 st3def) = true ∧
    ((result_state (make_perimeters P3 st3def)).regions.getD 0 default).perimeter_surfaces
        = [surfSq 1 0] ∧
    P3.gen default [] = .ok ([surfSq 5 9], [surfSq 1 0]) ∧
    surfSq 1 0 ≠ surfSq 5 9 := by
  refine ⟨by decide, by decide, rfl, by decide⟩

theorem loop_nil (P : PerimeterPrims) (st : LayerState) (done : List Nat) :
    make_perimeters_loop P st [] done = .ok st := rfl

theorem loop_cons_not_mem (P : PerimeterPrims) (st : LayerState) (i : Nat)
    (rest done : List Nat) (h : i ∉ done) :
    make_perimeters_loop P st (i :: rest) done =
      match (if (group_members_of st.regions i).length == 1
             then process_single P st i
             else process_multi P st i (group_members_of st.regions i)) with
      | .ok st1 => make_perimeters_loop P st1 rest (done ++ group_members_of st.regions i)
      | .thrown e st1 => .thrown e st1 := by
  simp [make_perimeters_loop, h]

/-- C2 (amended): `Layer::make_perimeters` clears the layer's aggregate
`perimeter_expolygons` at the start of every group's processing, so after
the call the aggregate holds only the perimeter contours of the *last*
group processed, not the aggregate across all groups.  Shown for a layer
with two singleton groups: the final aggregate is the second group's
output only, while the first group's regions still received their own
surfaces. -/
theorem c2_last_group_only (P : PerimeterPrims) (r0 r1 : LayerRegion)
    (pex : List ExPolygon) (per0 fill0 per1 fill1 : List Surface)
    (hmatch : configMatch r0.config r1.config = false)
    (h0 : P.gen r0.config r0.slices = .ok (per0, fill0))
    (h1 : P.gen r1.config r1.slices = .ok (per1, fill1)) :
    make_perimeters P ⟨[r0, r1], pex⟩ =
      .ok ⟨[{ r0 with fill_surfaces := fill0, perimeter_surfaces := per0 },
            { r1 with fill_surfaces := fill1, perimeter_surfaces := per1 }],
           per1.map (fun s => s.expolygon)⟩ := by
  have hr : List.range 2 = [0, 1] := rfl
  have hg0 : group_members_of [r0, r1] 0 = [0] := by
    simp [group_members_of, hr, hmatch]
  have hg1 : ∀ x : LayerRegion, group_members_of [x, r1] 1 = [1] := by
    intro x
    simp [group_members_of, hr]
  show make_perimeters_loop P ⟨[r0, r1], pex⟩ [0, 1] [] = _
  rw [loop_cons_not_mem P _ 0 [1] [] (by simp)]
  rw [hg0]
  simp only [List.length_cons, List.length_nil, Nat.zero_add, Nat.reduceBEq,
    if_true, beq_self_eq_true]
  simp only [process_single, List.getD_cons_zero, h0, List.set_cons_zero,
    List.nil_append]
  rw [loop_cons_not_mem P _ 1 [] [0] (by simp)]
  rw [hg1]
  simp only [List.length_cons, List.length_nil, Nat.zero_add, Nat.reduceBEq,
    if_true, beq_self_eq_true]
  simp only [process_single, List.getD_cons_succ, List.getD_cons_zero, h1,
    List.set_cons_succ, List.set_cons_zero]
  rfl

/-- C2 counterexample: a layer with two singleton perimeter groups whose
generated perimeter contours are `exSq` (group of region 0) and `exSq2`
(group of region 1); after `Layer::make_perimeters` the aggregate
`perimeter_expolygons` is `[exSq2]` only — the first group's contour
`exSq` is absent, so the aggregate is not aggregated across all groups. -/
theorem c2_counterexample :
    result_is_ok (make_perimeters P2 st2def) = true ∧
    (result_state (make_perimeters P2 st2def)).perimeter_expolygons = [exSq2] ∧
    P2.gen r0c2.config r0c2.slices = .ok ([surfSq 3 0], []) ∧
    (surfSq 3 0).expolygon = exSq ∧
    exSq ∉ (result_state (make_perimeters P2 st2def)).perimeter_expolygons := by
  refine ⟨by decide, by decide, rfl, by decide, by decide⟩

/-- C2 witness. -/
theorem c2_witness :
    make_perimeters P2 st2def =
      .ok ⟨[{ r0c2 with fill_surfaces := [], perimeter_surfaces := [surfSq 3 0] },
            { r1c2 with fill_surfaces := [], perimeter_surfaces := [surfSq2 4 0] }],
           [exSq2]⟩ := by
  have h := c2_last_group_only P2 r0c2 r1c2 [] [surfSq 3 0] [] [surfSq2 4 0] []
    (by decide) rfl rfl
  simpa [st2def, surfSq2] using h

/-- C5 (amended): when a boolean intersection fails with
`DegenerateGeometry` during the redistribution step of a multi-region
group, `Layer::make_perimeters` propagates the failure synchronously —
but without rollback: the member regions processed before the failing
call keep their freshly overwritten `fill_surfaces`/`perimeter_surfaces`
(partial mutation), while the remaining members keep their pre-call
state. -/
theorem c5_failure_propagates_partial_state (P : PerimeterPrims)
    (r0 r1 : LayerRegion) (pex : List ExPolygon) (ns per fill : List Surface)
    (ef0 ep0 : List ExPolygon) (e : GeomErr)
    (hmatch : configMatch r0.config r1.config = true)
    (hmb : merge_buckets P (pooled_slices ⟨[r0, r1], pex⟩ [0, 1])
        (bucket_keys (pooled_slices ⟨[r0, r1], pex⟩ [0, 1])) = .ok ns)
    (hg : P.gen r0.config ns = .ok (per, fill))
    (hfe : fill.isEmpty = false)
    (h0f : P.intersection_ex fill r0.slices = .ok ef0)
    (h0p : P.intersection_ex per r0.slices = .ok ep0)
    (h1f : P.intersection_ex fill r1.slices = .error e) :
    make_perimeters P ⟨[r0, r1], pex⟩ =
      .thrown e ⟨[{ r0 with
            fill_surfaces := ef0.map (surface_with_attrs (fill.headD default)),
            perimeter_surfaces := ep0.map (surface_with_attrs (fill.headD default)) },
          r1],
        per.map (fun s => s.expolygon)⟩ := by
  have hr : List.range 2 = [0, 1] := rfl
  have hg0 : group_members_of [r0, r1] 0 = [0, 1] := by
    simp [group_members_of, hr, hmatch]
  show make_perimeters_loop P ⟨[r0, r1], pex⟩ [0, 1] [] = _
  rw [loop_cons_not_mem P _ 0 [1] [] (by simp)]
  rw [hg0]
  rw [if_neg (by decide)]
  simp only [process_multi, hmb, List.getD_cons_zero, hg, hfe,
    Bool.false_eq_true, if_false]
  simp only [redistribute, List.getD_cons_zero, List.getD_cons_succ, h0f,
    h0p, h1f, List.set_cons_zero, List.set_cons_succ]

/-- C5 counterexample: after the intersection primitive fails on the
second region of a two-region group, `Layer::make_perimeters` aborts with
the exception, but region 0's `fill_surfaces` differ from their pre-call
value — the failed group's member regions do not all keep their pre-call
state. -/
theorem c5_counterexample :
    result_is_ok (make_perimeters P5 st5def) = false ∧
    ((result_state (make_perimeters P5 st5def)).regions.getD 0 default).fill_surfaces
        ≠ (st5def.regions.getD 0 default).fill_surfaces := by
  refine ⟨by decide, by decide⟩

/-- C5 witness. -/
theorem c5_witness :
    make_perimeters P5 st5def =
      .thrown GeomErr.degenerateGeometry
        ⟨[⟨default, [surfSq 0 0], [surfSq 1 0], [surfSq 1 0]⟩, r1c5],
          [exSq]⟩ := by
  have h := c5_failure_propagates_partial_state P5 r0c5 r1c5 []
    [surfSq 0 0, surfSq2 0 0] [surfSq 5 9] [surfSq 1 0] [exSq] [exSq]
    GeomErr.degenerateGeometry (by decide) rfl rfl rfl rfl rfl rfl
  simpa [st5def, surface_with_attrs, surfSq] using h

/-- C3 witness. -/
theorem c3_witness :
    (st3fin.regions.getD 0 default).perimeter_surfaces =
        (st3mid.regions.getD 0 default).perimeter_surfaces ∨
      tagged_from (([surfSq 1 0] : List Surface).headD default)
        (st3fin.regions.getD 0 default).perimeter_surfaces = true := by
  exact c3_perimeter_template_from_fill_front P3 [surfSq 1 0] [surfSq 5 9]
    [0, 1] st3mid st3fin rfl 0

theorem configMatch_eq_key (a b : PrintRegionConfig) :
    configMatch a b = true ↔ keyOf a = keyOf b := by
  constructor
  · intro h
    simp only [configMatch, Bool.and_eq_true, beq_iff_eq] at h
    simp only [keyOf, Prod.ext_iff]
    tauto
  · intro h
    simp only [keyOf, Prod.ext_iff] at h
    simp only [configMatch, Bool.and_eq_true, beq_iff_eq]
    tauto

theorem configMatch_self (a : PrintRegionConfig) : configMatch a a = true := by
  simp [configMatch]

theorem lead_isP (rs : List LayerRegion) (j : Nat) (h : j < rs.length) :
    leadP rs j (leadOf rs j h) := by
  unfold leadOf
  exact Nat.find_spec _

theorem lead_spec (rs : List LayerRegion) (j : Nat) (h : j < rs.length) :
    leadOf rs j h < rs.length ∧
      configMatch (cfgAt rs (leadOf rs j h)) (cfgAt rs j) = true :=
  lead_isP rs j h

theorem lead_min' (rs : List LayerRegion) (j : Nat) (h : j < rs.length)
    (m : Nat) (hm : m < rs.length)
    (hmat : configMatch (cfgAt rs m) (cfgAt rs j) = true) :
    leadOf rs j h ≤ m := by
  unfold leadOf
  exact Nat.find_min' _ (show leadP rs j m from ⟨hm, hmat⟩)

theorem lead_le (rs : List LayerRegion) (j : Nat) (h : j < rs.length) :
    leadOf rs j h ≤ j :=
  lead_min' rs j h j h (configMatch_self _)

theorem lead_eq_of_match (rs : List LayerRegion) (j k : Nat)
    (hj : j < rs.length) (hk : k < rs.length)
    (hm : configMatch (cfgAt rs j) (cfgAt rs k) = true) :
    leadOf rs j hj = leadOf rs k hk := by
  have hjs := lead_spec rs j hj
  have hks := lead_spec rs k hk
  apply Nat.le_antisymm
  · apply lead_min' rs j hj (leadOf rs k hk) hks.1
    have h1 := hks.2
    rw [configMatch_eq_key] at h1 hm ⊢
    rw [h1, ← hm]
  · apply lead_min' rs k hk (leadOf rs j hj) hjs.1
    have h1 := hjs.2
    rw [configMatch_eq_key] at h1 hm ⊢
    rw [h1, hm]

theorem lead_self (rs : List LayerRegion) (j : Nat) (hj : j < rs.length)
    (h2 : leadOf rs j hj < rs.length) :
    leadOf rs (leadOf rs j hj) h2 = leadOf rs j hj :=
  lead_eq_of_match rs (leadOf rs j hj) j h2 hj (lead_spec rs j hj).2

theorem mem_group_members (rs : List LayerRegion) (i j : Nat) :
    j ∈ group_members_of rs i ↔
      j = i ∨ (j < rs.length ∧ i < j ∧
        configMatch (cfgAt rs i) (cfgAt rs j) = true) := by
  simp [group_members_of, List.mem_filter, List.mem_range, cfgAt,
    Bool.and_eq_true, decide_eq_true_eq, and_assoc]

theorem groups_shape (rs : List LayerRegion) :
    ∀ (l done : List Nat) (g : List Nat), g ∈ make_groups_loop rs l done →
      ∃ i, i ∈ l ∧ g = group_members_of rs i := by
  intro l
  induction l with
  | nil =>
    intro done g hg
    simp [make_groups_loop] at hg
  | cons i rest ih =>
    intro done g hg
    simp only [make_groups_loop] at hg
    by_cases hd : i ∈ done
    · rw [if_pos hd] at hg
      obtain ⟨i2, hi2, he⟩ := ih _ g hg
      exact ⟨i2, List.mem_cons_of_mem _ hi2, he⟩
    · rw [if_neg hd] at hg
      rcases List.mem_cons.1 hg with he | hg2
      · exact ⟨i, List.mem_cons_self _ _, he⟩
      · obtain ⟨i2, hi2, he⟩ := ih _ g hg2
        exact ⟨i2, List.mem_cons_of_mem _ hi2, he⟩

theorem lead_group_in_loop (rs : List LayerRegion) :
    ∀ (m k : Nat) (done : List Nat),
      (∀ d ∈ done, ∃ hd : d < rs.length, leadOf rs d hd < k) →
      ∀ i (hin : i < rs.length), leadOf rs i hin = i → k ≤ i → i < k + m →
        group_members_of rs i ∈ make_groups_loop rs (List.range' k m) done := by
  intro m
  induction m with
  | zero =>
    intro k done _ i _ _ hk him
    omega
  | succ m ih =>
    intro k done hdone i hin hlead hk him
    have hrange : List.range' k (m + 1) = k :: List.range' (k + 1) m := rfl
    rw [hrange]
    by_cases hik : i = k
    · subst hik
      have hnd : i ∉ done := by
        intro hmem
        obtain ⟨hd, hlt⟩ := hdone i hmem
        have hsame : leadOf rs i hd = leadOf rs i hin := rfl
        rw [hsame, hlead] at hlt
        omega
      simp only [make_groups_loop]
      rw [if_neg hnd]
      exact List.mem_cons_self _ _
    · have hik2 : k < i := by omega
      simp only [make_groups_loop]
      by_cases hd : k ∈ done
      · rw [if_pos hd]
        refine ih (k + 1) done ?_ i hin hlead (by omega) (by omega)
        intro d hm
        obtain ⟨hdn, hlt⟩ := hdone d hm
        exact ⟨hdn, by omega⟩
      · rw [if_neg hd]
        refine List.mem_cons_of_mem _ ?_
        refine ih (k + 1) (done ++ group_members_of rs k) ?_ i hin hlead
          (by omega) (by omega)
        intro d hm
        rcases List.mem_append.1 hm with hm1 | hm2
        · obtain ⟨hdn, hlt⟩ := hdone d hm1
          exact ⟨hdn, by omega⟩
        · have hkn : k < rs.length := by omega
          rcases (mem_group_members rs k d).1 hm2 with rfl | ⟨hdn, hkd, hmat⟩
          · exact ⟨hkn, by have := lead_le rs d hkn; omega⟩
          · have he := lead_eq_of_match rs k d hkn hdn hmat
            have hle := lead_le rs k hkn
            exact ⟨hdn, by omega⟩

/-- C6: two regions of a layer are placed in the same perimeter group by
`Layer::make_perimeters` exactly when their configurations agree on all
eight compared fields (`configMatch`); identical configurations always
share a group, any difference always separates them. -/
theorem c6_grouping_iff_config_match (rs : List LayerRegion) (j k : Nat)
    (hj : j < rs.length) (hk : k < rs.length) :
    (∃ g, g ∈ make_groups rs ∧ j ∈ g ∧ k ∈ g) ↔
      configMatch (cfgAt rs j) (cfgAt rs k) = true := by
  constructor
  · rintro ⟨g, hg, hjg, hkg⟩
    obtain ⟨i, _, rfl⟩ := groups_shape rs _ _ g hg
    have hmj : configMatch (cfgAt rs i) (cfgAt rs j) = true := by
      rcases (mem_group_members rs i j).1 hjg with rfl | ⟨_, _, hm⟩
      · exact configMatch_self _
      · exact hm
    have hmk : configMatch (cfgAt rs i) (cfgAt rs k) = true := by
      rcases (mem_group_members rs i k).1 hkg with rfl | ⟨_, _, hm⟩
      · exact configMatch_self _
      · exact hm
    rw [configMatch_eq_key] at hmj hmk ⊢
    rw [← hmj, ← hmk]
  · intro hm
    have hlt := (lead_spec rs j hj).1
    have hmm := lead_eq_of_match rs j k hj hk hm
    have hself := lead_self rs j hj hlt
    have hgmem := lead_group_in_loop rs rs.length 0 [] (by simp)
      (leadOf rs j hj) hlt hself (Nat.zero_le _) (by omega)
    refine ⟨group_members_of rs (leadOf rs j hj), ?_, ?_, ?_⟩
    · unfold make_groups
      rw [List.range_eq_range']
      exact hgmem
    · apply (mem_group_members rs _ j).2
      by_cases hej : leadOf rs j hj = j
      · exact Or.inl hej.symm
      · exact Or.inr ⟨hj, Nat.lt_of_le_of_ne (lead_le rs j hj) hej,
          (lead_spec rs j hj).2⟩
    · apply (mem_group_members rs _ k).2
      by_cases hek : leadOf rs j hj = k
      · exact Or.inl hek.symm
      · refine Or.inr ⟨hk, ?_, ?_⟩
        · have h1 := lead_le rs k hk
          rw [← hmm] at h1
          exact Nat.lt_of_le_of_ne h1 hek
        · rw [hmm]
          exact (lead_spec rs k hk).2

/-- C6 witness. -/
theorem c6_witness : configMatch (cfgAt rs6w 0) (cfgAt rs6w 2) = true :=
  (c6_grouping_iff_config_match rs6w 0 2 (by decide) (by decide)).mp
    ⟨[0, 2], by decide, by decide, by decide⟩

theorem takeWhile_all_append (p : Polygon → Bool) (as bs : List Polygon)
    (ha : ∀ a ∈ as, p a = true) (hb : bs.takeWhile p = []) :
    (as ++ bs).takeWhile p = as := by
  induction as with
  | nil => simpa using hb
  | cons x xs ih =>
    have hx := ha x (List.mem_cons_self _ _)
    simp only [List.cons_append, List.takeWhile_cons, hx, if_true]
    rw [ih (fun a h => ha a (List.mem_cons_of_mem _ h))]

theorem dropWhile_all_append (p : Polygon → Bool) (as bs : List Polygon)
    (ha : ∀ a ∈ as, p a = true) :
    (as ++ bs).dropWhile p = bs.dropWhile p := by
  induction as with
  | nil => simp
  | cons x xs ih =>
    have hx := ha x (List.mem_cons_self _ _)
    simp only [List.cons_append, List.dropWhile_cons, hx, if_true]
    exact ih (fun a h => ha a (List.mem_cons_of_mem _ h))

theorem to_polygons_takeWhile (exs : List ExPolygon) (h : wf_expolygons exs) :
    (to_polygons exs).takeWhile (fun q => !ccw q) = [] := by
  cases exs with
  | nil => rfl
  | cons e rest =>
    have hc : ccw e.contour = true := (h e (List.mem_cons_self _ _)).1
    have ht : to_polygons (e :: rest) = e.contour :: (e.holes ++ to_polygons rest) := by
      simp [to_polygons]
    rw [ht]
    simp [List.takeWhile_cons, hc]

theorem to_polygons_dropWhile (exs : List ExPolygon) (h : wf_expolygons exs) :
    (to_polygons exs).dropWhile (fun q => !ccw q) = to_polygons exs := by
  cases exs with
  | nil => rfl
  | cons e rest =>
    have hc : ccw e.contour = true := (h e (List.mem_cons_self _ _)).1
    have ht : to_polygons (e :: rest) = e.contour :: (e.holes ++ to_polygons rest) := by
      simp [to_polygons]
    rw [ht]
    simp [List.dropWhile_cons, hc]

theorem regroupFuel_to_polygons (exs : List ExPolygon) :
    ∀ fuel, wf_expolygons exs → (to_polygons exs).length ≤ fuel →
      regroupFuel fuel (to_polygons exs) = exs := by
  induction exs with
  | nil =>
    intro fuel _ _
    cases fuel <;> rfl
  | cons e rest ih =>
    intro fuel hwf hlen
    have hto : to_polygons (e :: rest) = e.contour :: (e.holes ++ to_polygons rest) := by
      simp [to_polygons]
    have hcw : ccw e.contour = true := (hwf e (List.mem_cons_self _ _)).1
    have hwfrest : wf_expolygons rest :=
      fun x hx => hwf x (List.mem_cons_of_mem _ hx)
    have hholes : ∀ a ∈ e.holes, (fun q => !ccw q) a = true := by
      intro a ha
      simp [(hwf e (List.mem_cons_self _ _)).2 a ha]
    cases fuel with
    | zero =>
      rw [hto] at hlen
      simp at hlen
    | succ f =>
      rw [hto]
      simp only [regroupFuel, hcw, if_true]
      have htake : (e.holes ++ to_polygons rest).takeWhile (fun q => !ccw q) = e.holes :=
        takeWhile_all_append _ _ _ hholes (to_polygons_takeWhile rest hwfrest)
      have hdrop : (e.holes ++ to_polygons rest).dropWhile (fun q => !ccw q) =
          to_polygons rest := by
        rw [dropWhile_all_append _ _ _ hholes, to_polygons_dropWhile rest hwfrest]
      rw [htake, hdrop]
      have hlen2 : (to_polygons rest).length ≤ f := by
        rw [hto] at hlen
        simp only [List.length_cons, List.length_append] at hlen
        omega
      rw [ih f hwfrest hlen2]

theorem union_to_polygons (exs : List ExPolygon) (h : wf_expolygons exs) :
    union_ (to_polygons exs) = exs :=
  regroupFuel_to_polygons exs (to_polygons exs).length h le_rfl

theorem chainStep_foldl_mem (l : List (Nat × Point)) :
    ∀ (last : Point) (acc : Option (Nat × Point)) (r : Nat × Point),
      l.foldl (chainStep last) acc = some r → acc = some r ∨ r ∈ l := by
  induction l with
  | nil =>
    intro last acc r h
    exact Or.inl h
  | cons c cs ih =>
    intro last acc r h
    simp only [List.foldl_cons] at h
    rcases ih last (chainStep last acc c) r h with h1 | h2
    · cases acc with
      | none =>
        simp only [chainStep] at h1
        cases h1
        exact Or.inr (List.mem_cons_self _ _)
      | some b =>
        simp only [chainStep] at h1
        split_ifs at h1
        · cases h1
          exact Or.inr (List.mem_cons_self _ _)
        · exact Or.inl h1
    · exact Or.inr (List.mem_cons_of_mem _ h2)

theorem chainStep_foldl_ne_none (l : List (Nat × Point)) :
    ∀ (last : Point) (b : Nat × Point),
      l.foldl (chainStep last) (some b) ≠ none := by
  induction l with
  | nil =>
    intro last b h
    cases h
  | cons c cs ih =>
    intro last b
    simp only [List.foldl_cons]
    have : ∃ x, chainStep last (some b) c = some x := by
      simp only [chainStep]
      split_ifs
      · exact ⟨c, rfl⟩
      · exact ⟨b, rfl⟩
    obtain ⟨x, hx⟩ := this
    rw [hx]
    exact ih last x

theorem chainPick_none (last : Point) (cands : List (Nat × Point)) :
    chainPick last cands = none → cands = [] := by
  cases cands with
  | nil => intro _; rfl
  | cons c cs =>
    intro h
    exfalso
    unfold chainPick at h
    simp only [List.foldl_cons] at h
    exact chainStep_foldl_ne_none cs last c h

theorem chainPick_mem (last : Point) (cands : List (Nat × Point))
    (r : Nat × Point) (h : chainPick last cands = some r) : r ∈ cands := by
  rcases chainStep_foldl_mem cands last none r h with h1 | h2
  · cases h1
  · exact h2

theorem chainAux_perm :
    ∀ (fuel : Nat) (last : Point) (cands : List (Nat × Point)),
      cands.length ≤ fuel → (chainAux fuel last cands).Perm (cands.map Prod.fst) := by
  intro fuel
  induction fuel with
  | zero =>
    intro last cands h
    have : cands = [] := List.eq_nil_of_length_eq_zero (Nat.le_zero.1 h)
    subst this
    simp [chainAux]
  | succ f ih =>
    intro last cands hlen
    simp only [chainAux]
    cases hp : chainPick last cands with
    | none =>
      have := chainPick_none last cands hp
      subst this
      simp
    | some c =>
      have hc := chainPick_mem last cands c hp
      have hlen2 : (cands.erase c).length ≤ f := by
        rw [List.length_erase_of_mem hc]
        omega
      have ihp := ih c.2 (cands.erase c) hlen2
      have hperm : cands.Perm (c :: cands.erase c) := List.perm_cons_erase hc
      refine List.Perm.trans (List.Perm.cons c.1 ihp) ?_
      exact ((hperm.map Prod.fst).symm :
        ((c :: cands.erase c).map Prod.fst).Perm (cands.map Prod.fst))

theorem chained_path_perm (pts : List Point) :
    (chained_path pts).Perm (List.range pts.length) := by
  unfold chained_path
  have h := chainAux_perm pts.length ⟨0, 0⟩ pts.enum (by simp)
  rw [← List.enum_map_fst pts]
  exact h

theorem map_getD_range {α : Type} (l : List α) (d : α) :
    (List.range l.length).map (fun i => l.getD i d) = l := by
  apply List.ext_getElem
  · simp
  · intro i h1 h2
    simp only [List.getElem_map, List.getElem_range]
    exact List.getD_eq_getElem l d h2

theorem make_slices_perm (regions : List LayerRegion) :
    (make_slices regions).Perm (merged_slices regions) := by
  have h1 := chained_path_perm
    ((merged_slices regions).map (fun ex => first_point ex.contour))
  rw [List.length_map] at h1
  have h2 := h1.map (fun i => (merged_slices regions).getD i default)
  rw [map_getD_range] at h2
  exact h2

/-- C7: for a layer with exactly one region whose raw slices are
well-formed (the model's rendering of non-self-overlapping input), the
single-region shortcut of `Layer::make_slices` is behaviorally identical
to the general union path applied to that one region, and the produced
island set equals the region's raw slices up to ordering. -/
theorem c7_single_region_equivalence (r : LayerRegion)
    (hwf : wf_expolygons (surfaces_to_expolygons r.slices)) :
    make_slices [r] = make_slices_general_path [r] ∧
    (make_slices [r]).Perm (surfaces_to_expolygons r.slices) := by
  have hmerged : merged_slices [r] = surfaces_to_expolygons r.slices := by
    simp [merged_slices]
  have hunion :
      union_ ((([r] : List LayerRegion).map
          (fun rr => surfaces_to_polygons rr.slices)).flatten) =
        surfaces_to_expolygons r.slices := by
    simp only [List.map_cons, List.map_nil, List.flatten_cons, List.flatten_nil,
      List.append_nil]
    exact union_to_polygons _ hwf
  constructor
  · simp only [make_slices, make_slices_general_path, hmerged, hunion]
  · have h := make_slices_perm [r]
    rw [hmerged] at h
    exact h

/-- C7 witness. -/
theorem c7_witness :
    make_slices [r7w] = make_slices_general_path [r7w] ∧
    (make_slices [r7w]).Perm (surfaces_to_expolygons r7w.slices) :=
  c7_single_region_equivalence r7w (by decide)

/-- C8: `Layer::make_slices` is deterministic — identical region input
yields the identical island sequence — and that sequence is exactly the
merged islands arranged in the order produced by the nearest-neighbor
chaining heuristic over each island's first contour vertex (a permutation
of the merged islands). -/
theorem c8_deterministic_chained_order (regions : List LayerRegion) :
    (∀ regions2, regions2 = regions → make_slices regions2 = make_slices regions) ∧
    make_slices regions =
      (chained_path ((merged_slices regions).map (fun ex => first_point ex.contour))).map
        (fun i => (merged_slices regions).getD i default) ∧
    (make_slices regions).Perm (merged_slices regions) :=
  ⟨fun _ h => by rw [h], rfl, make_slices_perm regions⟩

theorem unlink_of_none (s : LayerHeap) (a : Nat) (hsa : s a = none) :
    unlink_neighbors s a = s := by
  unfold unlink_neighbors
  rw [hsa]

theorem destroy_lookup_ne (s : LayerHeap) (a b : Nat) (hba : b ≠ a) :
    destroy_layer s a b = unlink_neighbors s a b := by
  simp [destroy_layer, release_layer, heap_remove, hba]

theorem destroy_lookup_self (s : LayerHeap) (a : Nat) :
    destroy_layer s a a = none := by
  simp [destroy_layer, release_layer, heap_remove]

theorem unlink_lookup (s : LayerHeap) (a : Nat) (n : LayerNode)
    (hsa : s a = some n) (b : Nat) :
    unlink_neighbors s a b =
      if n.upper = some b ∧ n.lower = some b then
        (s b).map (fun m => ⟨none, none, m.regs⟩)
      else if n.upper = some b then
        (s b).map (fun m => ⟨m.upper, none, m.regs⟩)
      else if n.lower = some b then
        (s b).map (fun m => ⟨none, m.lower, m.regs⟩)
      else s b := by
  unfold unlink_neighbors
  rw [hsa]
  cases hu : n.upper with
  | none =>
    cases hl : n.lower with
    | none => simp [hu, hl]
    | some l =>
      simp only [hu, hl, heap_update]
      by_cases hbl : b = l
      · subst hbl
        simp
      · have hlb : l ≠ b := Ne.symm hbl
        simp [hbl, hlb]
  | some u =>
    cases hl : n.lower with
    | none =>
      simp only [hu, hl, heap_update]
      by_cases hbu : b = u
      · subst hbu
        simp
      · have hub : u ≠ b := Ne.symm hbu
        simp [hbu, hub]
    | some l =>
      simp only [hu, hl, heap_update]
      by_cases hbl : b = l
      · subst hbl
        by_cases hbu : b = u
        · subst hbu
          simp [Option.map_map]
          rfl
        · have hub : u ≠ b := Ne.symm hbu
          simp [hbu, hub]
      · have hlb : l ≠ b := Ne.symm hbl
        by_cases hbu : b = u
        · subst hbu
          simp [hbl, hlb]
        · have hub : u ≠ b := Ne.symm hbu
          simp [hbl, hlb, hbu, hub]

theorem destroy_aux1 (s : LayerHeap) (a : Nat) (hsym : symm_inv s)
    (n : LayerNode) (hsa : s a = some n) (x : Nat) (mx : LayerNode) (y : Nat)
    (hx : s x = some mx) (hxa : x ≠ a) (hy : mx.upper = some y) (hya : y ≠ a) :
    ∃ ny, destroy_layer s a y = some ny ∧ ny.lower = some x := by
  obtain ⟨my, hmy, hlow⟩ := (hsym x mx hx).1 y hy
  have hyu : n.upper ≠ some y := by
    intro hu
    obtain ⟨my2, hmy2, h2⟩ := (hsym a n hsa).1 y hu
    rw [hmy] at hmy2
    cases hmy2
    rw [hlow] at h2
    exact hxa (Option.some_inj.1 h2)
  rw [destroy_lookup_ne s a y hya, unlink_lookup s a n hsa y]
  by_cases g1 : n.upper = some y ∧ n.lower = some y
  · exact absurd g1.1 hyu
  · rw [if_neg g1]
    rw [if_neg hyu]
    by_cases g3 : n.lower = some y
    · rw [if_pos g3, hmy]
      exact ⟨⟨none, my.lower, my.regs⟩, rfl, hlow⟩
    · rw [if_neg g3]
      exact ⟨my, hmy, hlow⟩

theorem destroy_aux2 (s : LayerHeap) (a : Nat) (hsym : symm_inv s)
    (n : LayerNode) (hsa : s a = some n) (x : Nat) (mx : LayerNode) (y : Nat)
    (hx : s x = some mx) (hxa : x ≠ a) (hy : mx.lower = some y) (hya : y ≠ a) :
    ∃ ny, destroy_layer s a y = some ny ∧ ny.upper = some x := by
  obtain ⟨my, hmy, hupp⟩ := (hsym x mx hx).2 y hy
  have hyl : n.lower ≠ some y := by
    intro hl
    obtain ⟨my2, hmy2, h2⟩ := (hsym a n hsa).2 y hl
    rw [hmy] at hmy2
    cases hmy2
    rw [hupp] at h2
    exact hxa (Option.some_inj.1 h2)
  rw [destroy_lookup_ne s a y hya, unlink_lookup s a n hsa y]
  by_cases g1 : n.upper = some y ∧ n.lower = some y
  · exact absurd g1.2 hyl
  · rw [if_neg g1]
    by_cases g2 : n.upper = some y
    · rw [if_pos g2, hmy]
      exact ⟨⟨my.upper, none, my.regs⟩, rfl, hupp⟩
    · rw [if_neg g2]
      rw [if_neg hyl]
      exact ⟨my, hmy, hupp⟩

/-- C9: the layer destructor first nulls out both neighbors' back-references
(already after the unlink phase, before the owned regions are released),
so after destroying layer `a` no remaining layer references `a`, `a` is
gone from the heap, and the neighbor-symmetry invariant
(`A.above == B → B.below == A` and vice versa) is preserved. -/
theorem c9_destructor_neighbor_unlink (s : LayerHeap) (a : Nat)
    (hsym : symm_inv s) :
    (∀ b, b ≠ a → ∀ nb, unlink_neighbors s a b = some nb →
        nb.upper ≠ some a ∧ nb.lower ≠ some a) ∧
    (∀ b nb, destroy_layer s a b = some nb →
        nb.upper ≠ some a ∧ nb.lower ≠ some a) ∧
    destroy_layer s a a = none ∧
    symm_inv (destroy_layer s a) := by
  have partA : ∀ b, b ≠ a → ∀ nb, unlink_neighbors s a b = some nb →
      nb.upper ≠ some a ∧ nb.lower ≠ some a := by
    intro b _ nb h
    cases hsa : s a with
    | none =>
      rw [unlink_of_none s a hsa] at h
      constructor
      · intro hup
        obtain ⟨na, hna, _⟩ := (hsym b nb h).1 a hup
        rw [hsa] at hna
        cases hna
      · intro hlo
        obtain ⟨na, hna, _⟩ := (hsym b nb h).2 a hlo
        rw [hsa] at hna
        cases hna
    | some n =>
      rw [unlink_lookup s a n hsa b] at h
      by_cases g1 : n.upper = some b ∧ n.lower = some b
      · rw [if_pos g1] at h
        obtain ⟨mb, _, hnb⟩ := Option.map_eq_some'.1 h
        subst hnb
        constructor
        · intro hup
          simp at hup
        · intro hlo
          simp at hlo
      · rw [if_neg g1] at h
        by_cases g2 : n.upper = some b
        · rw [if_pos g2] at h
          obtain ⟨mb, hmb, hnb⟩ := Option.map_eq_some'.1 h
          subst hnb
          constructor
          · intro hup
            simp at hup
            obtain ⟨na, hna, hlow⟩ := (hsym b mb hmb).1 a hup
            rw [hsa] at hna
            cases hna
            exact g1 ⟨g2, hlow⟩
          · intro hlo
            simp at hlo
        · rw [if_neg g2] at h
          by_cases g3 : n.lower = some b
          · rw [if_pos g3] at h
            obtain ⟨mb, hmb, hnb⟩ := Option.map_eq_some'.1 h
            subst hnb
            constructor
            · intro hup
              simp at hup
            · intro hlo
              simp at hlo
              obtain ⟨na, hna, hupp⟩ := (hsym b mb hmb).2 a hlo
              rw [hsa] at hna
              cases hna
              exact g2 hupp
          · rw [if_neg g3] at h
            constructor
            · intro hup
              obtain ⟨na, hna, hlow⟩ := (hsym b nb h).1 a hup
              rw [hsa] at hna
              cases hna
              exact g3 hlow
            · intro hlo
              obtain ⟨na, hna, hupp⟩ := (hsym b nb h).2 a hlo
              rw [hsa] at hna
              cases hna
              exact g2 hupp
  have partB : ∀ b nb, destroy_layer s a b = some nb →
      nb.upper ≠ some a ∧ nb.lower ≠ some a := by
    intro b nb h
    by_cases hba : b = a
    · subst hba
      rw [destroy_lookup_self] at h
      cases h
    · rw [destroy_lookup_ne s a b hba] at h
      exact partA b hba nb h
  have partD : symm_inv (destroy_layer s a) := by
    intro x nx hx
    have hxa : x ≠ a := by
      intro he
      subst he
      rw [destroy_lookup_self] at hx
      cases hx
    rw [destroy_lookup_ne s a x hxa] at hx
    cases hsa : s a with
    | none =>
      rw [unlink_of_none s a hsa] at hx
      constructor
      · intro y hy
        obtain ⟨my, hmy, hlow⟩ := (hsym x nx hx).1 y hy
        have hya : y ≠ a := by
          intro he
          rw [he, hsa] at hmy
          cases hmy
        refine ⟨my, ?_, hlow⟩
        rw [destroy_lookup_ne s a y hya, unlink_of_none s a hsa]
        exact hmy
      · intro y hy
        obtain ⟨my, hmy, hupp⟩ := (hsym x nx hx).2 y hy
        have hya : y ≠ a := by
          intro he
          rw [he, hsa] at hmy
          cases hmy
        refine ⟨my, ?_, hupp⟩
        rw [destroy_lookup_ne s a y hya, unlink_of_none s a hsa]
        exact hmy
    | some n =>
      rw [unlink_lookup s a n hsa x] at hx
      by_cases g1 : n.upper = some x ∧ n.lower = some x
      · rw [if_pos g1] at hx
        obtain ⟨mx, _, hnx⟩ := Option.map_eq_some'.1 hx
        subst hnx
        constructor
        · intro y hy
          simp at hy
        · intro y hy
          simp at hy
      · rw [if_neg g1] at hx
        by_cases g2 : n.upper = some x
        · rw [if_pos g2] at hx
          obtain ⟨mx, hmx, hnx⟩ := Option.map_eq_some'.1 hx
          subst hnx
          constructor
          · intro y hy
            simp at hy
            have hya : y ≠ a := by
              intro he
              rw [he] at hy
              obtain ⟨na, hna, hlow⟩ := (hsym x mx hmx).1 a hy
              rw [hsa] at hna
              cases hna
              exact g1 ⟨g2, hlow⟩
            exact destroy_aux1 s a hsym n hsa x mx y hmx hxa hy hya
          · intro y hy
            simp at hy
        · rw [if_neg g2] at hx
          by_cases g3 : n.lower = some x
          · rw [if_pos g3] at hx
            obtain ⟨mx, hmx, hnx⟩ := Option.map_eq_some'.1 hx
            subst hnx
            constructor
            · intro y hy
              simp at hy
            · intro y hy
              simp at hy
              have hya : y ≠ a := by
                intro he
                rw [he] at hy
                obtain ⟨na, hna, hupp⟩ := (hsym x mx hmx).2 a hy
                rw [hsa] at hna
                cases hna
                exact g2 hupp
              exact destroy_aux2 s a hsym n hsa x mx y hmx hxa hy hya
          · rw [if_neg g3] at hx
            constructor
            · intro y hy
              have hya : y ≠ a := by
                intro he
                rw [he] at hy
                obtain ⟨na, hna, hlow⟩ := (hsym x nx hx).1 a hy
                rw [hsa] at hna
                cases hna
                exact g3 hlow
              exact destroy_aux1 s a hsym n hsa x nx y hx hxa hy hya
            · intro y hy
              have hya : y ≠ a := by
                intro he
                rw [he] at hy
                obtain ⟨na, hna, hupp⟩ := (hsym x nx hx).2 a hy
                rw [hsa] at hna
                cases hna
                exact g2 hupp
              exact destroy_aux2 s a hsym n hsa x nx y hx hxa hy hya
  exact ⟨partA, partB, destroy_lookup_self s a, partD⟩

/-- C9 witness. -/
theorem c9_witness :
    destroy_layer s9w 0 0 = none ∧
    ((⟨none, none, []⟩ : LayerNode).upper ≠ some 0 ∧
      (⟨none, none, []⟩ : LayerNode).lower ≠ some 0) := by
  have hsym9 : symm_inv s9w := by
    intro x nx hx
    by_cases h0 : x = 0
    · subst h0
      have hval : s9w 0 = some ⟨some 1, none, []⟩ := rfl
      rw [hval] at hx
      have hx2 : nx = ⟨some 1, none, []⟩ := (Option.some_inj.1 hx).symm
      subst hx2
      constructor
      · intro y hy
        cases hy
        exact ⟨⟨none, some 0, []⟩, rfl, rfl⟩
      · intro y hy
        cases hy
    · by_cases h1 : x = 1
      · subst h1
        have hval : s9w 1 = some ⟨none, some 0, []⟩ := rfl
        rw [hval] at hx
        have hx2 : nx = ⟨none, some 0, []⟩ := (Option.some_inj.1 hx).symm
        subst hx2
        constructor
        · intro y hy
          cases hy
        · intro y hy
          cases hy
          exact ⟨⟨some 1, none, []⟩, rfl, rfl⟩
      · have hval : s9w x = none := by
          simp [s9w, h0, h1]
        rw [hval] at hx
        cases hx
  have h := c9_destructor_neighbor_unlink s9w 0 hsym9
  refine ⟨h.2.2.1, ?_⟩
  exact h.1 1 (by decide) ⟨none, none, []⟩ (by decide)

/-- C8 witness. -/
theorem c8_witness :
    make_slices [r7w] = make_slices [r7w] ∧
    make_slices [r7w] =
      (chained_path ((merged_slices [r7w]).map (fun ex => first_point ex.contour))).map
        (fun i => (merged_slices [r7w]).getD i default) :=
  ⟨(c8_deterministic_chained_order [r7w]).1 [r7w] rfl,
    (c8_deterministic_chained_order [r7w]).2.1⟩

end Slic3r
